import Mathlib

/-!
Shallow embedding of the MCP server-selection reconciliation logic of this
repository: the `MCPSelect` client component (its local-storage guard, its
explicit selection setter, its defaults-reconciliation and
availability-pruning effects, and its label renderer), the generic
`MultiSelect` control, the server-side `getMCPs` model, and the GET route
that serves it.  Machine state is passed explicitly; asynchronous fetches
appear as `Except`/`Option`-valued inputs.
-/

namespace MCPReconcile

/-- Translated from `storageCondition` in the `MCPSelect` module: persist
when the raw stored string is truthy with trimmed length above 2, and
otherwise exactly when the new value is a non-empty array. -/
def storageCondition (value : List String) (rawCurrentValue : Option String) : Bool :=
  match rawCurrentValue with
  | some raw => if raw ≠ "" ∧ raw.trim.length > 2 then true else !value.isEmpty
  | none => !value.isEmpty

/-- Translated from `setSelectedValues` in `MCPSelect`: a nullish (or
non-array) argument is silently ignored, leaving the previous `mcp`
selection unchanged; an array argument replaces the selection verbatim. -/
def setSelectedValues (values : Option (List String)) (prevMcp : List String) : List String :=
  match values with
  | none => prevMcp
  | some vs => vs

/-- Translated from the defaults-reconciliation `useEffect` in `MCPSelect`:
when `mcpValues` is nullish the selection becomes `defaultMCPServers`;
otherwise every default missing from the selection is appended (the setter
is only invoked when at least one default is missing). -/
def defaultsStep (defaultMCPServers : List String) (mcpValues : Option (List String)) :
    List String :=
  match mcpValues with
  | none => defaultMCPServers
  | some vs =>
    let missingDefaults := defaultMCPServers.filter (fun server => !vs.contains server)
    if missingDefaults.length > 0 then vs ++ missingDefaults else vs

/-- Component-level state of the availability-pruning effect: the
`hasSetFetched` ref, which remembers only the single most recently pruned
context key, and the per-context-key selected values. -/
structure PruneState where
  hasSetFetched : Option String
  store : String → List String

/-- A user-driven selection write for one context key (`setMCPValues`
invoked from the UI for that key). -/
def userSet (key : String) (vals : List String) (st : PruneState) : PruneState :=
  { st with store := fun k => if k = key then vals else st.store k }

/-- Translated from the availability-pruning `useEffect` in `MCPSelect`: a
no-op when `hasSetFetched.current` equals the key or the query has not
fetched; otherwise it records the key in the ref and replaces the key's
selection with its intersection with the fetched server set when that set
has positive size, and with the empty list when the set is absent or
empty. -/
def pruneStep (key : String) (isFetched : Bool) (mcpServerSet : Option (List String))
    (st : PruneState) : PruneState :=
  if st.hasSetFetched = some key then st
  else if !isFetched then st
  else
    let avail := mcpServerSet.getD []
    let newVals :=
      if avail.length > 0 then (st.store key).filter (fun mcp => avail.contains mcp)
      else []
    { hasSetFetched := some key
      store := fun k => if k = key then newVals else st.store k }

/-- The value produced by `renderSelectedValues`: a plain string (the
placeholder or the single remaining identifier), the localized select
prompt with an ellipsis, or the localized selected count. -/
inductive Label where
  | text (s : String)
  | localizedSelect
  | localizedCount (n : Nat)
  deriving DecidableEq

/-- Translated from the body of `renderSelectedValues` in `MCPSelect`,
parametrised by the `defaultMCPServers` list the closure reads: values
appearing in that list are filtered out, then the placeholder (or the
localized select prompt when the placeholder is falsy) is returned when
nothing remains, the single remaining value when exactly one remains, and
the localized count otherwise. -/
def renderSelectedValues (defaultMCPServers : List String) (values : List String)
    (placeholder : Option String) : Label :=
  let filteredValues := values.filter (fun value => !defaultMCPServers.contains value)
  if filteredValues.length = 0 then
    match placeholder with
    | some p => if p = "" then Label.localizedSelect else Label.text p
    | none => Label.localizedSelect
  else if filteredValues.length = 1 then Label.text (filteredValues.headD "")
  else Label.localizedCount filteredValues.length

/-- The memoized `renderSelectedValues` callback: its `useCallback`
dependency array lists only `localize`, so the callback (and the
`defaultMCPServers` list its body closes over) is recreated only when the
localize function changes, not when the default list changes. -/
structure RenderCb where
  localizeVersion : Nat
  capturedDefaults : List String
  deriving DecidableEq

/-- One `useCallback` evaluation during a render: keep the previous
callback when the `localize` dependency is unchanged, else capture the
current defaults. -/
def useCallbackRSV (prev : Option RenderCb) (localizeVersion : Nat)
    (defaultMCPServers : List String) : RenderCb :=
  match prev with
  | some cb =>
    if cb.localizeVersion = localizeVersion then cb
    else { localizeVersion := localizeVersion, capturedDefaults := defaultMCPServers }
  | none => { localizeVersion := localizeVersion, capturedDefaults := defaultMCPServers }

/-- Invoking the memoized callback: its body filters with the captured
default list, not with the default list current at call time. -/
def runRenderCb (cb : RenderCb) (values : List String) (placeholder : Option String) : Label :=
  renderSelectedValues cb.capturedDefaults values placeholder

/-- Translated from the `mcpServers` memo in `MCPSelect`: null when the
fetched server set is absent or empty, else the set's elements with the
default servers filtered out. -/
def mcpServersMemo (mcpServerSet : Option (List String)) (defaultMCPServers : List String) :
    Option (List String) :=
  match mcpServerSet with
  | none => none
  | some servers =>
    if servers.isEmpty then none
    else some (servers.filter (fun server => !defaultMCPServers.contains server))

/-- Translated from the early return of the `MCPSelect` component body:
it returns null exactly when the fetched server set is absent or has size
zero. -/
def mcpSelectRendersNull (mcpServerSet : Option (List String)) : Bool :=
  match mcpServerSet with
  | none => true
  | some servers => servers.isEmpty

/-- Serialization of a selection as written to local storage
(`JSON.stringify` of an array of escape-free identifiers). -/
def serializeList (l : List String) : String :=
  "[" ++ String.intercalate "," (l.map (fun s => "\"" ++ s ++ "\"")) ++ "]"

/-- State of the local-storage-backed value for one storage key: the raw
persisted string (absent until a save happens) and the in-memory value. -/
structure HookState where
  raw : Option String
  value : List String
  deriving DecidableEq

/-- Modelled from the spec: the `useLocalStorageAlt` hook itself is not
among the sources; per the spec's persistence-adapter boundary its setter
commits the new value and writes the persisted snapshot, the write being
gated by the `storageCondition` predicate that the `MCPSelect` call site
passes to the hook for exactly that purpose. -/
def commit (st : HookState) (v : List String) : HookState :=
  { value := v
    raw := if storageCondition v st.raw then some (serializeList v) else st.raw }

/-- The label-rendering path of the component: a pure projection of the
hook state that performs no commit (translated from `renderSelectedValues`,
which reads values and invokes no setter). -/
def renderLabelEvent (st : HookState) (defaults : List String) (placeholder : Option String) :
    HookState × Label :=
  (st, renderSelectedValues defaults st.value placeholder)

/-- Translated from `MultiSelect`: the default list used for filtering,
falling back to the hardcoded `time` entry when the fetched default list is
empty. -/
def serverNamesForFiltering (defaultMCPServers : List String) : List String :=
  if defaultMCPServers.length > 0 then defaultMCPServers else ["time"]

/-- Translated from `MultiSelect`: the selected values that survive the
default-name filter. -/
def filteredSelectedValues (defaultMCPServers selectedValues : List String) : List String :=
  selectedValues.filter
    (fun value => !(serverNamesForFiltering defaultMCPServers).contains value)

/-- Translated from the early return in `MultiSelect`: the component
renders null exactly when the filtered selected values are empty. -/
def multiSelectRendersNull (defaultMCPServers selectedValues : List String) : Bool :=
  (filteredSelectedValues defaultMCPServers selectedValues).isEmpty

/-- One entry of the `getMCPs` response. -/
structure MCPOption where
  name : String
  isDefault : Bool
  deriving DecidableEq

/-- The fields of the custom configuration consulted by `getMCPs`: whether
an `mcpServers` entry is present (truthy), and the optional
`mcpServerConfig.defaultMCPServers` list. -/
structure CustomConfig where
  hasMcpServers : Bool
  defaultMCPServers : Option (List String)

/-- Translated from the body of `getMCPs` inside its `try`: the awaited
config fetch and server-name fetch are inputs that may reject, and a
rejection propagates. -/
def getMCPsBody (customConfig : Except String (Option CustomConfig))
    (serverNames : Except String (List String)) : Except String (List MCPOption) := do
  let cfg ← customConfig
  match cfg with
  | none => return []
  | some c =>
    if !c.hasMcpServers then return []
    else do
      let names ← serverNames
      let defaults := c.defaultMCPServers.getD []
      return names.map (fun server => { name := server, isDefault := defaults.contains server })

/-- Translated from `getMCPs`: the surrounding `try`/`catch` turns any
error into a logged message and a resolved empty array. -/
def getMCPs (customConfig : Except String (Option CustomConfig))
    (serverNames : Except String (List String)) : Except String (List MCPOption) :=
  match getMCPsBody customConfig serverNames with
  | Except.ok options => Except.ok options
  | Except.error _ => Except.ok []

/-- Translated from the GET handler in `api/server/routes/mcp.js`: status
200 with the list on success, 500 when the awaited `getMCPs` rejects. -/
def routeGetStatus (result : Except String (List MCPOption)) : Nat :=
  match result with
  | Except.ok _ => 200
  | Except.error _ => 500

end MCPReconcile

namespace MCPReconcile

/-- Every member of the default list appears in the result of a
defaults-reconciliation pass. -/
theorem mem_defaultsStep_of_mem_defaults (defaults : List String) (v : Option (List String))
    (d : String) (hd : d ∈ defaults) : d ∈ defaultsStep defaults v := by
  match v with
  | none => simpa [defaultsStep] using hd
  | some vs =>
    simp only [defaultsStep]
    by_cases hvs : d ∈ vs
    · split
      · exact List.mem_append_left _ hvs
      · exact hvs
    · have hmem : d ∈ defaults.filter (fun server => !vs.contains server) := by
        refine List.mem_filter.mpr ⟨hd, ?_⟩
        simp [hvs]
      have hne : (defaults.filter (fun server => !vs.contains server)).length > 0 :=
        List.length_pos.mpr (List.ne_nil_of_mem hmem)
      rw [if_pos hne]
      exact List.mem_append_right _ hmem

/-- A defaults-reconciliation pass never drops a value already selected. -/
theorem mem_defaultsStep_of_mem_selected (defaults vs : List String) (x : String)
    (hx : x ∈ vs) : x ∈ defaultsStep defaults (some vs) := by
  simp only [defaultsStep]
  split
  · exact List.mem_append_left _ hx
  · exact hx

/-- Claim C7: the defaults-reconciliation step is idempotent — for every
prior selection state and every default list, applying the step twice in
succession with the same defaults yields the same selection as applying it
once. -/
theorem C7_defaults_idempotent (defaults : List String) (v : Option (List String)) :
    defaultsStep defaults (some (defaultsStep defaults v)) = defaultsStep defaults v := by
  have hmem : ∀ d ∈ defaults, d ∈ defaultsStep defaults v := fun d hd =>
    mem_defaultsStep_of_mem_defaults defaults v d hd
  generalize defaultsStep defaults v = r at hmem ⊢
  have hnil : defaults.filter (fun server => !r.contains server) = [] :=
    List.filter_eq_nil_iff.mpr (fun d hd => by simp [hmem d hd])
  simp only [defaultsStep]
  rw [hnil]
  simp

/-- Claim C1 counterexample: with defaults observed on `[a, b]`, the user
explicitly removes the default `a` via `setSelectedValues (some [b])`, yet
the next defaults-reconciliation pass with `a` among the defaults puts `a`
back into the selection — contradicting the claim that `a` is never
reinstated. -/
theorem C1_counterexample :
    "a" ∈ defaultsStep ["a", "b", "c"]
        (some (setSelectedValues (some ["b"]) ["a", "b"])) := by decide

/-- Claim C1 (amended): the component tracks no explicit-removal state —
every defaults-reconciliation pass re-adds each default missing from the
current selection (so an explicitly removed default is reinstated), while
values already selected are preserved. -/
theorem C1_defaults_always_readded (defaults vs : List String) (a : String)
    (ha : a ∈ defaults) :
    a ∈ defaultsStep defaults (some vs) ∧
      ∀ x ∈ vs, x ∈ defaultsStep defaults (some vs) :=
  ⟨mem_defaultsStep_of_mem_defaults defaults (some vs) a ha,
   fun x hx => mem_defaultsStep_of_mem_selected defaults vs x hx⟩

/-- Witness for the amended claim C1 at a concrete input. -/
theorem C1_witness :
    "a" ∈ (["a", "b", "c"] : List String) ∧
      ("a" ∈ defaultsStep ["a", "b", "c"] (some ["b"]) ∧
        ∀ x ∈ (["b"] : List String), x ∈ defaultsStep ["a", "b", "c"] (some ["b"])) :=
  ⟨by decide, C1_defaults_always_readded ["a", "b", "c"] ["b"] "a" (by decide)⟩

end MCPReconcile

namespace MCPReconcile

/-- Claim C2 counterexample: after pruning context key `k1` once, a user
adds `z` to `k1`; availability then resolves for a different key `k2`
(overwriting the single-slot `hasSetFetched` ref), and a second
availability resolution for `k1` is not a no-op — it prunes again and
removes the user-added `z`. -/
theorem C2_counterexample :
    ((pruneStep "k2" true (some [])
          (userSet "k1" ["x", "z"]
            (pruneStep "k1" true (some ["x", "y"])
              (userSet "k1" ["x"] ⟨none, fun _ => []⟩)))).store "k1" = ["x", "z"]) ∧
      ((pruneStep "k1" true (some ["x", "y"])
          (pruneStep "k2" true (some [])
            (userSet "k1" ["x", "z"]
              (pruneStep "k1" true (some ["x", "y"])
                (userSet "k1" ["x"] ⟨none, fun _ => []⟩))))).store "k1" = ["x"]) :=
  ⟨rfl, rfl⟩

/-- Claim C2 (amended): pruning only happens once `isFetched` is true, and
a second availability resolution for the same key immediately following a
first one (no other key pruned in between) is a no-op; the `hasSetFetched`
guard remembers only the most recently pruned key, not every pruned key. -/
theorem C2_prune_consecutive_noop (st : PruneState) (key : String)
    (s1 s2 : Option (List String)) (f2 : Bool) :
    pruneStep key f2 s2 (pruneStep key true s1 st) = pruneStep key true s1 st ∧
      pruneStep key false s1 st = st := by
  constructor
  · have h : (pruneStep key true s1 st).hasSetFetched = some key := by
      by_cases hg : st.hasSetFetched = some key
      · simp [pruneStep, hg]
      · simp [pruneStep, hg]
    generalize pruneStep key true s1 st = st1 at h ⊢
    simp [pruneStep, h]
  · simp [pruneStep]

/-- Claim C3: on an availability resolution that is not blocked by the
`hasSetFetched` guard, the post-prune selection for the key is the
intersection of the pre-prune selection with the available set when that
set is non-empty, becomes empty when the set is absent or empty, and in
either case contains nothing that was not already selected (the operation
forces no default back in). -/
theorem C3_first_prune_intersection (st : PruneState) (key : String)
    (avail : Option (List String)) (hguard : st.hasSetFetched ≠ some key) :
    ((avail.getD [] ≠ []) →
        (pruneStep key true avail st).store key
          = (st.store key).filter (fun mcp => (avail.getD []).contains mcp)) ∧
      ((avail.getD [] = []) → (pruneStep key true avail st).store key = []) ∧
      (∀ x ∈ (pruneStep key true avail st).store key, x ∈ st.store key) := by
  have hstore : (pruneStep key true avail st).store key
      = (if (avail.getD []).length > 0
          then (st.store key).filter (fun mcp => (avail.getD []).contains mcp) else []) := by
    rw [pruneStep, if_neg hguard]
    simp
  refine ⟨?_, ?_, ?_⟩
  · intro hne
    rw [hstore, if_pos (List.length_pos.mpr hne)]
  · intro he
    rw [hstore, he]
    simp
  · intro x hx
    rw [hstore] at hx
    by_cases hl : (avail.getD []).length > 0
    · rw [if_pos hl] at hx
      exact (List.mem_filter.mp hx).1
    · rw [if_neg hl] at hx
      simp at hx

/-- Witness for claim C3 at a concrete input: an unpruned state selecting
`[a, b]` resolves availability `[b, c]` and is pruned to `[b]`. -/
theorem C3_witness :
    (pruneStep "k1" true (some ["b", "c"]) ⟨none, fun _ => ["a", "b"]⟩).store "k1" = ["b"] := by
  have h := C3_first_prune_intersection ⟨none, fun _ => ["a", "b"]⟩ "k1" (some ["b", "c"])
      (by decide)
  exact (h.1 (by decide)).trans (by decide)

end MCPReconcile

namespace MCPReconcile

/-- Claim C4 counterexample: committing an empty selection when no raw
value is persisted yet does commit the value but writes no persisted
snapshot — `storageCondition` rejects an empty array with no stored raw
string, so `save` is not invoked on this committed change. -/
theorem C4_counterexample :
    (commit ⟨none, ["a"]⟩ []).value = [] ∧ (commit ⟨none, ["a"]⟩ []).raw = none :=
  ⟨rfl, rfl⟩

/-- Claim C4 (amended): a committed mutation always updates the value, and
the persisted snapshot is written exactly when `storageCondition` holds —
in particular every committed non-empty selection is persisted, while a
commit for which the condition fails leaves the stored raw string
untouched; the label-rendering path never writes. -/
theorem C4_save_gated (st : HookState) (v : List String) :
    (commit st v).value = v ∧
      (storageCondition v st.raw = true → (commit st v).raw = some (serializeList v)) ∧
      (storageCondition v st.raw = false → (commit st v).raw = st.raw) ∧
      (v ≠ [] → (commit st v).raw = some (serializeList v)) ∧
      (∀ defaults placeholder, (renderLabelEvent st defaults placeholder).1 = st) := by
  refine ⟨rfl, ?_, ?_, ?_, fun _ _ => rfl⟩
  · intro h
    simp [commit, h]
  · intro h
    simp [commit, h]
  · intro hv
    have hc : storageCondition v st.raw = true := by
      cases hraw : st.raw with
      | none => simp [storageCondition, List.isEmpty_iff, hv]
      | some raw =>
        simp only [storageCondition]
        split
        · rfl
        · simp [List.isEmpty_iff, hv]
    simp [commit, hc]

/-- Witness for the amended claim C4 at a concrete input: committing the
non-empty selection `[a]` writes its serialization. -/
theorem C4_witness :
    (["a"] : List String) ≠ [] ∧
      (commit ⟨none, []⟩ ["a"]).raw = some (serializeList ["a"]) :=
  ⟨by decide, (C4_save_gated ⟨none, []⟩ ["a"]).2.2.2.1 (by decide)⟩

/-- Claim C5: the memoized label renderer closes over the default list of
the render at which the `localize` dependency last changed; when the
default list later grows to contain `web` while `localize` is unchanged,
the callback still filters with the stale list `[time]` and returns the
identifier `web`, whereas filtering with the current list `[time, web]`
would return the placeholder. -/
theorem C5_stale_default_closure :
    runRenderCb (useCallbackRSV (some (useCallbackRSV none 0 ["time"])) 0 ["time", "web"])
        ["time", "web"] (some "MCP Servers") = Label.text "web" ∧
      renderSelectedValues ["time", "web"] ["time", "web"] (some "MCP Servers")
        = Label.text "MCP Servers" ∧
      Label.text "web" ≠ Label.text "MCP Servers" := by
  refine ⟨rfl, rfl, by decide⟩

/-- Claim C6 counterexample: a call carrying the duplicate-bearing array
`[a, a]` is accepted and stored verbatim — the committed selection holds
`a` twice, so duplicates are not silently deduplicated (and no error is
signalled). -/
theorem C6_counterexample :
    (setSelectedValues (some ["a", "a"]) []).count "a" = 2 := by decide

/-- Claim C6 (amended): the selection setter never signals any error — a
nullish (or non-array) argument is silently ignored, leaving the previous
selection unchanged, and an array argument replaces the selection
verbatim, duplicates preserved; the operation is total. -/
theorem C6_total_no_error (prevMcp : List String) :
    setSelectedValues none prevMcp = prevMcp ∧
      ∀ vs, setSelectedValues (some vs) prevMcp = vs :=
  ⟨rfl, fun _ => rfl⟩

end MCPReconcile

namespace MCPReconcile

/-- Claim C8: the `MultiSelect` component returns null exactly when every
currently selected value belongs to the default server list (or to the
hardcoded `[time]` fallback used when that list is empty) — so in any such
state no item can be selected through the control. -/
theorem C8_null_when_all_defaults (defaultMCPServers selectedValues : List String) :
    multiSelectRendersNull defaultMCPServers selectedValues = true ↔
      ∀ v ∈ selectedValues, v ∈ serverNamesForFiltering defaultMCPServers := by
  simp [multiSelectRendersNull, filteredSelectedValues, List.isEmpty_iff,
    List.filter_eq_nil_iff]

/-- Claim C9: `MCPSelect` returns null exactly when the fetched
availability set is absent (as during the whole period before the query
resolves) or empty; this coincides with the `mcpServers` memo producing
null, so the selection UI appears only once at least one server is known
to be available. -/
theorem C9_null_iff_no_available (mcpServerSet : Option (List String))
    (defaultMCPServers : List String) :
    (mcpSelectRendersNull mcpServerSet = true ↔
        mcpServersMemo mcpServerSet defaultMCPServers = none) ∧
      (mcpSelectRendersNull mcpServerSet = true ↔
        mcpServerSet = none ∨ mcpServerSet = some []) := by
  cases mcpServerSet with
  | none => simp [mcpSelectRendersNull, mcpServersMemo]
  | some servers =>
    cases servers with
    | nil => simp [mcpSelectRendersNull, mcpServersMemo]
    | cons a l => simp [mcpSelectRendersNull, mcpServersMemo]

/-- Claim C10: `getMCPs` never rejects — for every configuration fetch and
server-name fetch outcome it resolves to an array, the GET route therefore
answers 200, and both the missing-`mcpServers` case and an internal error
resolve to the empty array. -/
theorem C10_getMCPs_never_rejects (customConfig : Except String (Option CustomConfig))
    (serverNames : Except String (List String)) :
    (∃ options, getMCPs customConfig serverNames = Except.ok options) ∧
      routeGetStatus (getMCPs customConfig serverNames) = 200 ∧
      getMCPs (Except.ok none) serverNames = Except.ok [] ∧
      getMCPs (Except.error "config failure") serverNames = Except.ok [] := by
  have hok : ∃ options, getMCPs customConfig serverNames = Except.ok options := by
    cases h : getMCPsBody customConfig serverNames with
    | ok options => exact ⟨options, by simp [getMCPs, h]⟩
    | error e => exact ⟨[], by simp [getMCPs, h]⟩
  obtain ⟨options, hopt⟩ := hok
  exact ⟨⟨options, hopt⟩, by rw [hopt]; rfl, rfl, rfl⟩

end MCPReconcile
